import Mathlib

/-!
Verification of the challenge-evaluation engine of `PriestOfYuleSacrifice.py`.

The Python source is shallowly embedded: file text is modelled as `List Char`
(Python strings), the ordered rule dictionary of `ChallengePasswordGame` as a
`List RuleFlags` in the dictionary's fixed order, and each rule predicate of
`evaluate_rules` as an executable Lean function.  Stateful pieces (the staged
disclosure loop of `ChallengePasswordGame.is_completed`, the query counter of
the classifier gateway, the runner's interrupt handling) become explicit state
passing.  Only ASCII text is considered, matching every literal in the source.
-/

/- ### Basic character/string utilities used by the source -/

/-- The whitespace characters of Python's default `str.rstrip` / regex
class (ASCII fragment, which is all the game's literals use). -/
def pyWhitespace : List Char := [' ', '\t', '\n', '\r', '\x0b', '\x0c']

/-- Python `s.rstrip()`: drop trailing whitespace. -/
def rstrip (l : List Char) : List Char :=
  (l.reverse.dropWhile (fun c => pyWhitespace.contains c)).reverse

/-- Python `s.lower()` (ASCII). -/
def lowerL (l : List Char) : List Char := l.map Char.toLower

/-- The ten decimal digit characters (regex class `[0-9]`). -/
def decDigits : List Char := ['0', '1', '2', '3', '4', '5', '6', '7', '8', '9']

/-- Python `int(char)` for a digit character. -/
def digitVal (c : Char) : Nat := c.toNat - '0'.toNat

/-- The string literal `"123456789"` used by the digit-sum rule
(`PriestOfYuleSacrifice.py` line 690); note `'0'` is absent. -/
def nonzeroDigits : List Char := ['1', '2', '3', '4', '5', '6', '7', '8', '9']

/-- Python `"IX" in content` and similar: `pat` occurs as a contiguous
substring of `s`. -/
def substringB (pat : List Char) : List Char → Bool
  | [] => pat.isEmpty
  | c :: rest => pat.isPrefixOf (c :: rest) || substringB pat rest

/-- `re.match` against an alternation of literal strings: the first pattern in
the list that is a prefix of `s`, returning the matched text. -/
def prefixAlternation (pats : List (List Char)) (s : List Char) : Option (List Char) :=
  pats.find? (fun p => p.isPrefixOf s)

/-- `re.search` against an alternation of literal strings: scan positions left
to right; at the leftmost matching position return the first alternative that
matches there (Python regex alternation order). -/
def searchAlternation (pats : List (List Char)) : List Char → Option (List Char)
  | [] => none
  | c :: rest =>
    match pats.find? (fun p => p.isPrefixOf (c :: rest)) with
    | some m => some m
    | none => searchAlternation pats rest

/- ### The rule predicates of `ChallengePasswordGame.evaluate_rules`
(`PriestOfYuleSacrifice.py` lines 656-744).  `content` is the candidate file's
text after `rstrip`, `title` is the file name without extension (`path.stem`). -/

/-- Rule 1, line 671-673: `len(content) >= 8`. -/
def rule_min_length (content : List Char) : Bool := 8 ≤ content.length

/-- Rule 2, line 676-678: `re.search("[0-9]", content)`. -/
def rule_has_digit (content : List Char) : Bool :=
  content.any (fun c => decDigits.contains c)

/-- The regex class `[^a-zA-Z0-9\s]` (line 681). -/
def isSpecialChar (c : Char) : Bool :=
  !(('a' ≤ c && c ≤ 'z') || ('A' ≤ c && c ≤ 'Z') || decDigits.contains c
    || pyWhitespace.contains c)

/-- Rule 3, line 681-683: a special character occurs somewhere. -/
def rule_special (content : List Char) : Bool := content.any isSpecialChar

/-- The digit-sum accumulation of lines 688-691: for each character of the
content, add `int(char)` when `char in "123456789"`. -/
def digit_sum : List Char → Nat
  | [] => 0
  | c :: rest => (if c ∈ nonzeroDigits then digitVal c else 0) + digit_sum rest

/-- Rule 4, lines 688-693: the accumulated digit sum equals 25. -/
def rule_digit_sum (content : List Char) : Bool := digit_sum content == 25

/-- The month alternation of line 696; `october` is absent in the source. -/
def monthNames : List (List Char) :=
  [String.toList "january", String.toList "february", String.toList "march",
   String.toList "april", String.toList "may", String.toList "june",
   String.toList "july", String.toList "august", String.toList "september",
   String.toList "november", String.toList "december"]

/-- Rule 5, lines 696-698: `re.search(months, lower_content)`. -/
def rule_month (content : List Char) : Bool :=
  (searchAlternation monthNames (lowerL content)).isSome

/-- Rule 6, lines 702-704: `len(content) <= 18`. -/
def rule_max_length (content : List Char) : Bool := content.length ≤ 18

/-- Rule 7, lines 707-709: `"IX" in content` (case-sensitive containment). -/
def rule_ix (content : List Char) : Bool := substringB ['I', 'X'] content

/-- The reindeer alternation of line 712. -/
def reindeerNames : List (List Char) :=
  [String.toList "dasher", String.toList "dancer", String.toList "prancer",
   String.toList "vixen", String.toList "comet", String.toList "cupid",
   String.toList "donner", String.toList "blitzen", String.toList "rudolph"]

/-- Rule 8, lines 712-714: `re.match(reindeer, lower_content)` — an anchored
match at the start of the lower-cased content. -/
def rule_reindeer (content : List Char) : Bool :=
  (prefixAlternation reindeerNames (lowerL content)).isSome

/-- Rule 9, lines 717-718: `title == content or title == content[::-1]`. -/
def rule_title_match (title content : List Char) : Bool :=
  title == content || title == content.reverse

/-- Rule 10, lines 721-722: `title == content[::-1]`. -/
def rule_title_reversed (title content : List Char) : Bool :=
  title == content.reverse

/-- The Roman-numeral alternation of line 725.  Note the source matches it
against `content`, not `lower_content`. -/
def romanNumerals : List (List Char) :=
  [['I'], ['V'], ['X'], ['L'], ['M'], ['C'], ['D']]

/-- Rule 11, lines 725-727: `re.match(romans, content)` — anchored at the start
of the raw (not lower-cased) content. -/
def rule_roman (content : List Char) : Bool :=
  (prefixAlternation romanNumerals content).isSome

/-- The repeated-character scan of lines 730-739: walk `lower_content` keeping
`char_list` (characters seen), `repeat_list` (distinct repeat offenders in
order of first repeat) and the `no_repeats` flag.  The Python loop never
breaks: it scans the whole content. -/
def repeatScanAux (seen reps : List Char) (noRep : Bool) : List Char → Bool × List Char
  | [] => (noRep, reps)
  | c :: rest =>
    if c ∈ seen then
      repeatScanAux seen (if c ∈ reps then reps else reps ++ [c]) false rest
    else
      repeatScanAux (seen ++ [c]) reps noRep rest

/-- The full scan, started with empty `char_list`/`repeat_list` and
`no_repeats = True` (lines 730-732). -/
def repeatScan (l : List Char) : Bool × List Char := repeatScanAux [] [] true l

/-- Rule 12, lines 730-740: `no_repeats` after scanning the lower-cased
content. -/
def rule_no_repeats (content : List Char) : Bool := (repeatScan (lowerL content)).1

/- ### The evidence strings appended to `matches` (one per rule, in order).
Each entry of the Python `matches` list is a constant format string around one
dynamic value; the embedding keeps exactly the dynamic value. -/

/-- The dynamic payload of each entry of the `matches` list built by
`evaluate_rules`. -/
inductive Evidence where
  | lenEv : Nat → Evidence
  | charEv : Option Char → Evidence
  | sumEv : Nat → Evidence
  | matchEv : Option (List Char) → Evidence
  | boolEv : Bool → Evidence
  | titleEv : List Char → Evidence
  | listEv : List Char → Evidence
deriving DecidableEq

/-- The twelve `matches.append(...)` payloads of lines 674-741, in order. -/
def evaluate_evidence (title content : List Char) : List Evidence :=
  [Evidence.lenEv content.length,
   Evidence.charEv (content.find? (fun c => decDigits.contains c)),
   Evidence.charEv (content.find? isSpecialChar),
   Evidence.sumEv (digit_sum content),
   Evidence.matchEv (searchAlternation monthNames (lowerL content)),
   Evidence.lenEv content.length,
   Evidence.boolEv (substringB ['I', 'X'] content),
   Evidence.matchEv (prefixAlternation reindeerNames (lowerL content)),
   Evidence.titleEv title,
   Evidence.titleEv title,
   Evidence.matchEv (prefixAlternation romanNumerals content),
   Evidence.listEv (repeatScan (lowerL content)).2]

/- ### The rule state of `ChallengePasswordGame` -/

/-- One value of the `self.requirements` dictionary: `[passed, shown]`
(line 576). -/
structure RuleFlags where
  passed : Bool
  shown : Bool
deriving DecidableEq

/-- The computed pass flag for each of the twelve rules, in dictionary
order. -/
def rule_passed_list (title content : List Char) : List Bool :=
  [rule_min_length content, rule_has_digit content, rule_special content,
   rule_digit_sum content, rule_month content, rule_max_length content,
   rule_ix content, rule_reindeer content, rule_title_match title content,
   rule_title_reversed title content, rule_roman content,
   rule_no_repeats content]

/-- The reset loop of lines 666-667: `bools[0] = False` for every rule. -/
def resetPassed (s : List RuleFlags) : List RuleFlags :=
  s.map (fun r => { r with passed := false })

/-- Store each rule's freshly computed pass flag into its slot (each rule body
of lines 671-740 writes `self.requirements[key][0]`, where after the reset
"set to `True` iff the condition holds" is the same as assigning the
condition). -/
def applyPassed : List RuleFlags → List Bool → List RuleFlags
  | [], _ => []
  | s, [] => s
  | r :: s, b :: bs => { r with passed := b } :: applyPassed s bs

/-- `ChallengePasswordGame.evaluate_rules` (lines 656-744): read the file
(`content = text.rstrip()`, `title = path.stem`), reset every `passed` flag,
re-derive each from the current content/title only, and build the `matches`
evidence list.  The `shown` flags are untouched. -/
def evaluate_rules (title raw : List Char) (s : List RuleFlags) :
    List RuleFlags × List Evidence :=
  let content := rstrip raw
  (applyPassed (resetPassed s) (rule_passed_list title content),
   evaluate_evidence title content)

/- ### The staged-disclosure loop of `ChallengePasswordGame.is_completed`
(lines 614-643), run after `evaluate_rules` has set the `passed` flags. -/

/-- One run of the `for i, (rule, bools) in enumerate(...)` loop, translated
to structural recursion over the rule list.

State threading mirrors the source exactly:
* `f` ("force shown") records that the previous iteration's unlock block set
  this rule's `shown` flag to `True` (line 641) — the dictionary write is
  materialised when the rule is visited;
* `p` accumulates "all rules strictly before this one are passed", which is
  what the inner `for j in range(i+1)` loop recomputes at line 634-637
  (the `passed` flags never change during the loop);
* `s` is the `success` local (line 614), set to `False` at every unmet rule.

Branches, for the current rule with effective shown flag `r.shown || f`:
* effectively shown: print (no state effect), then the unlock block runs;
  `show_next = p && r.passed`; when true and a next rule exists its shown flag
  is set (carried as the next `f`); when `i+1` is out of bounds the
  `IndexError` breaks the loop, which returns the same state as falling off
  the end;
* not shown but passed: `continue` — the unlock block is skipped (line 629),
  so the next `f` is `false`;
* not shown and not passed: `break` (line 622) with `success = False` and the
  remaining rules untouched. -/
def discloseGo (f p s : Bool) : List RuleFlags → List RuleFlags × Bool
  | [] => ([], s)
  | r :: rest =>
    if r.shown || f then
      let out := discloseGo (p && r.passed) (p && r.passed) (s && r.passed) rest
      ({ r with shown := true } :: out.1, out.2)
    else
      if r.passed then
        let out := discloseGo false (p && r.passed) (s && r.passed) rest
        (r :: out.1, out.2)
      else
        (r :: rest, false)

/-- One full evaluation pass of the disclosure loop over the rule state, as
entered at line 614: `success = True`, no pending reveal, empty passed
prefix. -/
def disclosure_pass (rules : List RuleFlags) : List RuleFlags × Bool :=
  discloseGo false true true rules

/-- Positional lookup in a rule list (total, `Option`-valued). -/
def nth {α : Type} : List α → Nat → Option α
  | [], _ => none
  | a :: _, 0 => some a
  | _ :: l, n + 1 => nth l n

/-- Visibility state is a downward-closed prefix: whenever a later rule is
shown, every earlier rule is shown too.  This holds for the initial
`self.requirements` (only the first rule is shown, line 576) and is preserved
by every disclosure pass. -/
def shownPrefixClosed : List RuleFlags → Bool
  | [] => true
  | r :: rest => (rest.all (fun x => !x.shown || r.shown)) && shownPrefixClosed rest

/-- The pending-reveal write of line 641 applied to the head of the remaining
rule list. -/
def forceHead (g : Bool) : List RuleFlags → List RuleFlags
  | [] => []
  | r :: rest => { r with shown := r.shown || g } :: rest

/- ### The classifier gateway -/

/-- Outcome of the query-budget check at the top of a gateway call: either the
call is rejected (sleep, counter reset, return `False` without contacting the
classifier) or it falls through to the remote `generate_content` call. -/
inductive GatewayCall where
  | rejectedCooldown : GatewayCall
  | contacted : GatewayCall
deriving DecidableEq

/-- `gemini_eyeballs` line 134: `queries = 0` is a local variable, re-bound on
every invocation. -/
def gemini_eyeballs_queries_init : Nat := 0

/-- The budget check `if queries > 4` (line 143 / line 414). -/
def gateway_budget_check (queries : Nat) : GatewayCall :=
  if queries > 4 then GatewayCall.rejectedCooldown else GatewayCall.contacted

/-- The outcome of one `gemini_eyeballs` call with respect to the rate
limiter: the check always sees the freshly initialised local counter. -/
def gemini_eyeballs_call : GatewayCall :=
  gateway_budget_check gemini_eyeballs_queries_init

/-- A session of `n` consecutive `gemini_eyeballs` calls, as produced by
repeated `ChallengeFeedReindeerImage.is_completed` polls (line 462); no
counter state survives between calls. -/
def gemini_eyeballs_session : Nat → List GatewayCall
  | 0 => []
  | n + 1 => gemini_eyeballs_session n ++ [gemini_eyeballs_call]

/-- `ChallengeFeedReindeerImage.check_image` (lines 406-439), the instance
method the free function was copied from: `self.queries` persists on the
instance, is incremented after each contacted call (line 439) and reset to 0
when the budget check rejects (line 427). -/
def check_image_step (queries : Nat) : GatewayCall × Nat :=
  if queries > 4 then (GatewayCall.rejectedCooldown, 0)
  else (GatewayCall.contacted, queries + 1)

/-- A session of `n` consecutive `check_image` calls threading
`self.queries` (initialised to 0 in `__init__`, line 397). -/
def check_image_session : Nat → List GatewayCall × Nat
  | 0 => ([], 0)
  | n + 1 =>
    let acc := check_image_session n
    let step := check_image_step acc.2
    (acc.1 ++ [step.1], step.2)

/- ### Interrupt handling in `ChallengeRunner.run` (lines 807-857) -/

/-- What happens inside the polling `while True` body (lines 818-832). -/
inductive PollEvent where
  | completedCheck : Bool → PollEvent
  | interrupt : PollEvent

inductive PollAction where
  | exitProcess : Nat → PollAction
  | breakLoop : PollAction
  | sleepAndRepeat : PollAction
deriving DecidableEq

/-- The poll loop body: a completed challenge breaks to the next challenge, an
incomplete one sleeps and repeats, and `KeyboardInterrupt` is caught at line
830 and answered with `sys.exit(0)`. -/
def poll_step : PollEvent → PollAction
  | PollEvent.interrupt => PollAction.exitProcess 0
  | PollEvent.completedCheck true => PollAction.breakLoop
  | PollEvent.completedCheck false => PollAction.sleepAndRepeat

/-- What happens inside the terminal password-gate loop (lines 844-855). -/
inductive GateEvent where
  | entry : List Char → GateEvent
  | interrupt : GateEvent

inductive GateAction where
  | openWinner : GateAction
  | decAttempt : GateAction
  | retryPrompt : GateAction
  | exitProcess : Nat → GateAction
deriving DecidableEq

/-- The password-gate loop body: a correct entry opens the winner page, a
wrong entry costs an attempt, and `KeyboardInterrupt` is caught at line 853,
a taunt is printed and the loop `continue`s — the process does not exit. -/
def gate_step (password : List Char) (_attempts : Nat) : GateEvent → GateAction
  | GateEvent.interrupt => GateAction.retryPrompt
  | GateEvent.entry s => if s == password then GateAction.openWinner else GateAction.decAttempt

/- ### `ChallengeMathAnswer.__init__` (lines 546-551) -/

structure MathChallenge where
  a : Nat
  b : Nat
  c : Nat
  correct_answer : Nat
deriving DecidableEq

/-- The inclusive range of Python `r.randint(0, 1000)`, from which the default
divisor `c` is drawn (line 546). -/
def c_default_domain : List Nat := List.range 1001

/-- The constructor body (lines 547-550): `self.correct_answer =
str(self.a * self.b // self.c)` raises an unguarded `ZeroDivisionError` when
`c = 0`, modelled as `none`. -/
def ChallengeMathAnswer_init (a b c : Nat) : Option MathChallenge :=
  if c = 0 then none
  else some { a := a, b := b, c := c, correct_answer := a * b / c }

/- ### Spec-worded comparison definitions (used only to settle refinement
claims against the source-derived definitions above) -/

/-- Spec wording for the prefix rules: the content, compared
case-insensitively, starts with a member of the fixed set. -/
def ciStartsWithAny (pats : List (List Char)) (s : List Char) : Bool :=
  pats.any (fun p => (lowerL p).isPrefixOf (lowerL s))

/-- Spec wording for the repeated-character rule: a single scan over the
lower-cased content that short-circuits on the first repeated character,
recording the offender found there. -/
def repeatScanShort (seen : List Char) : List Char → Bool × List Char
  | [] => (true, [])
  | c :: rest =>
    if c ∈ seen then (false, [c]) else repeatScanShort (seen ++ [c]) rest

/-- Spec wording for the digit-sum rule: the sum of all decimal digit
characters occurring anywhere in the content. -/
def digitSumSpec : List Char → Nat
  | [] => 0
  | c :: rest => (if c ∈ decDigits then digitVal c else 0) + digitSumSpec rest

/- ### Helper lemmas -/

theorem find?_isSome_eq_any {α : Type} (p : α → Bool) :
    ∀ l : List α, (l.find? p).isSome = l.any p := by
  intro l
  induction l with
  | nil => rfl
  | cons a rest ih =>
    by_cases h : p a = true
    · simp [List.find?, List.any, h]
    · simp only [Bool.not_eq_true] at h
      simp [List.find?, List.any, h, ih]

theorem digit_sum_eq_spec : ∀ content : List Char,
    digit_sum content = digitSumSpec content := by
  intro content
  induction content with
  | nil => rfl
  | cons c rest ih =>
    have hchar : (if c ∈ nonzeroDigits then digitVal c else 0)
        = (if c ∈ decDigits then digitVal c else 0) := by
      by_cases h0 : c = '0'
      · subst h0; decide
      · have hmem : (c ∈ nonzeroDigits) ↔ (c ∈ decDigits) := by
          simp only [nonzeroDigits, decDigits, List.mem_cons, List.not_mem_nil]
          tauto
        by_cases hm : c ∈ nonzeroDigits
        · rw [if_pos hm, if_pos (hmem.mp hm)]
        · rw [if_neg hm, if_neg (fun hd => hm (hmem.mpr hd))]
    simp only [digit_sum, digitSumSpec, ih, hchar]

theorem repeatScanAux_fst : ∀ (l seen reps : List Char) (b : Bool),
    (repeatScanAux seen reps b l).1 = true ↔
      b = true ∧ l.Nodup ∧ ∀ c ∈ l, c ∉ seen := by
  intro l
  induction l with
  | nil => intro seen reps b; simp [repeatScanAux]
  | cons c rest ih =>
    intro seen reps b
    by_cases h : c ∈ seen
    · simp only [repeatScanAux, if_pos h, ih]
      constructor
      · rintro ⟨hfalse, -⟩
        exact absurd hfalse (by simp)
      · rintro ⟨-, -, hall⟩
        exact absurd h (hall c (List.mem_cons_self c rest))
    · simp only [repeatScanAux, if_neg h, ih, List.nodup_cons]
      constructor
      · rintro ⟨hb, hnd, hall⟩
        have hcr : c ∉ rest := fun hc => (hall c hc) (by simp)
        refine ⟨hb, ⟨hcr, hnd⟩, ?_⟩
        intro x hx
        rcases List.mem_cons.mp hx with hxc | hx'
        · subst hxc
          exact h
        · intro hxs
          exact hall x hx' (List.mem_append.mpr (Or.inl hxs))
      · rintro ⟨hb, ⟨hcr, hnd⟩, hall⟩
        refine ⟨hb, hnd, ?_⟩
        intro x hx hxm
        rcases List.mem_append.mp hxm with hxs | hxc
        · exact hall x (List.mem_cons_of_mem c hx) hxs
        · rw [List.mem_singleton] at hxc
          subst hxc
          exact hcr hx

theorem rule_no_repeats_iff_nodup (content : List Char) :
    rule_no_repeats content = true ↔ (lowerL content).Nodup := by
  simp [rule_no_repeats, repeatScan, repeatScanAux_fst]

/- ### Claim C1: the classifier gateway's rate limiter -/

/-- C1 (code_bug evidence).  The claim — after more than the query budget of
calls within a session, the next call is rejected without contacting the
classifier — describes the intended behaviour, implemented with a persistent
`self.queries` counter in `ChallengeFeedReindeerImage.check_image`: there the
sixth consecutive call is rejected.  But
`ChallengeFeedReindeerImage.is_completed` invokes the free function
`gemini_eyeballs`, whose `queries` counter is a local re-initialised to `0` on
every invocation, so its budget check `queries > 4` never fires: every call of
every session contacts the classifier, no matter how many came before. -/
theorem gemini_eyeballs_rate_limiter_dead :
    (∀ n : Nat, gemini_eyeballs_session n = List.replicate n GatewayCall.contacted) ∧
    gemini_eyeballs_call = GatewayCall.contacted ∧
    (check_image_session 6).1.getLast? = some GatewayCall.rejectedCooldown := by
  refine ⟨?_, by decide, by decide⟩
  intro n
  induction n with
  | zero => rfl
  | succ n ih =>
    rw [gemini_eyeballs_session, ih, List.replicate_succ']
    rfl

/- ### Claim C2: keyboard-interrupt handling -/

/-- C2 counterexample.  The claim states a keyboard interrupt during the
terminal password-gate prompt exits the process with status 0; in the source
(line 853-855) the `KeyboardInterrupt` is caught, a taunt is printed and the
prompt loop continues — concretely, with 3 attempts remaining an interrupt
does not exit. -/
theorem gate_interrupt_not_exit :
    gate_step (String.toList "wsedrfvbhoiasdf hoiuashfbokhunhh") 3 GateEvent.interrupt
      ≠ GateAction.exitProcess 0 := by
  decide

/-- C2 amended.  A keyboard interrupt during challenge polling exits the
process immediately with status 0 (line 830-832); a keyboard interrupt during
the terminal password-gate prompt is caught and the prompt merely repeats,
without exiting and without consuming an attempt. -/
theorem interrupt_handling :
    poll_step PollEvent.interrupt = PollAction.exitProcess 0 ∧
    (∀ (pw : List Char) (a : Nat),
      gate_step pw a GateEvent.interrupt = GateAction.retryPrompt) ∧
    (∀ (pw : List Char) (a c : Nat),
      gate_step pw a GateEvent.interrupt ≠ GateAction.exitProcess c) := by
  refine ⟨rfl, fun pw a => rfl, fun pw a c => ?_⟩
  intro h
  cases h

/- ### Claim C5: the two prefix rules -/

/-- C5 counterexample.  The claim says the Roman-numeral rule is a
case-insensitive prefix match; but the source matches the uppercase
alternation against the raw content (line 725), so the content `"xmas"` —
which case-insensitively starts with the numeral `X` — fails the rule. -/
theorem roman_rule_not_case_insensitive :
    ¬(rule_roman (String.toList "xmas") = true ↔
      ciStartsWithAny romanNumerals (String.toList "xmas") = true) := by
  decide

/-- C5 amended.  The reindeer rule is a case-insensitive prefix match against
the fixed reindeer-name set (the lowercase alternation is matched against the
lower-cased content), while the Roman-numeral rule is a case-SENSITIVE prefix
match: the raw content must start with one of the uppercase characters
`I, V, X, L, M, C, D`. -/
theorem prefix_rules_characterisation : ∀ content : List Char,
    (rule_reindeer content = true ↔
      ciStartsWithAny reindeerNames content = true) ∧
    (rule_roman content = true ↔
      romanNumerals.any (fun p => p.isPrefixOf content) = true) := by
  intro content
  constructor
  · have h1 : rule_reindeer content
        = reindeerNames.any (fun p => p.isPrefixOf (lowerL content)) := by
      simp only [rule_reindeer, prefixAlternation, find?_isSome_eq_any]
    have h2 : ciStartsWithAny reindeerNames content
        = (reindeerNames.map lowerL).any (fun p => p.isPrefixOf (lowerL content)) := by
      simp only [ciStartsWithAny, List.any_map]
      rfl
    have h3 : reindeerNames.map lowerL = reindeerNames := by decide
    rw [h1, h2, h3]
  · simp only [rule_roman, prefixAlternation, find?_isSome_eq_any]

/- ### Claim C6: the filename/content rules -/

/-- C6 counterexample.  The claim (and the spec's example) says a file named
`"rebmaced"` whose trimmed content is `"december"` passes the reversed-name
rule; but `"december"` reversed is `"rebmeced"`, so the rule
`title == content[::-1]` fails for that pair. -/
theorem reversed_rule_rebmaced_fails :
    rule_title_reversed (String.toList "rebmaced") (String.toList "december")
      = false := by
  decide

/-- C6 amended.  A file named `"rebmeced"` (the actual reversal of
`"december"`) whose trimmed content is `"december"` passes the reversed-name
rule, while a file named `"december"` with content `"december"` passes the
match rule but not the reversed one. -/
theorem filename_rules_examples :
    rule_title_reversed (String.toList "rebmeced") (String.toList "december") = true ∧
    rule_title_match (String.toList "december") (String.toList "december") = true ∧
    rule_title_reversed (String.toList "december") (String.toList "december") = false := by
  decide

/- ### Claim C7: the no-repeated-characters rule -/

/-- C7 counterexample.  The claim says the scan short-circuits on the first
repeated character while also recording offenders `'a', 'b', 'c'` for
`"abcabc"`; the source's loop (lines 733-739) has no break: on `"abcabc"` it
records all three offenders, whereas a short-circuiting scan (the spec's
wording, `repeatScanShort`) stops at the first and records only `'a'`. -/
theorem repeat_scan_not_short_circuit :
    (repeatScan (lowerL (String.toList "abcabc"))).2 = ['a', 'b', 'c'] ∧
    (repeatScanShort [] (lowerL (String.toList "abcabc"))).2 = ['a'] ∧
    repeatScan (lowerL (String.toList "abcabc"))
      ≠ repeatScanShort [] (lowerL (String.toList "abcabc")) := by
  decide

/-- C7 amended.  The rule scans the whole lower-cased content once WITHOUT
short-circuiting, recording each distinct repeated character in order of first
repeat; it passes exactly when the lower-cased content has no duplicate
character.  `"abcdefg"` passes; `"abcabc"` fails with recorded offenders
`'a', 'b', 'c'`. -/
theorem no_repeats_rule_characterisation :
    (∀ content : List Char,
      rule_no_repeats content = true ↔ (lowerL content).Nodup) ∧
    rule_no_repeats (String.toList "abcdefg") = true ∧
    rule_no_repeats (String.toList "abcabc") = false ∧
    (repeatScan (lowerL (String.toList "abcabc"))).2 = ['a', 'b', 'c'] := by
  refine ⟨rule_no_repeats_iff_nodup, by decide, by decide, by decide⟩

/- ### Claim C8: the digit-sum rule -/

/-- C8 confirmed.  The rule passes exactly when the sum of all decimal digit
characters occurring anywhere in the content is 25 (the source omits `'0'`
from its digit string, which contributes 0 to the sum anyway); `"9979"` sums
to 34 and fails, `"a7k9i9"` sums to 25 and passes. -/
theorem digit_sum_rule_correct :
    (∀ content : List Char,
      rule_digit_sum content = true ↔ digitSumSpec content = 25) ∧
    rule_digit_sum (String.toList "9979") = false ∧
    digit_sum (String.toList "9979") = 34 ∧
    rule_digit_sum (String.toList "a7k9i9") = true ∧
    digit_sum (String.toList "a7k9i9") = 25 := by
  refine ⟨?_, by decide, by decide, by decide, by decide⟩
  intro content
  simp [rule_digit_sum, digit_sum_eq_spec]

/- ### Claim C10: `ChallengeMathAnswer.__init__` division by zero -/

/-- C10 confirmed.  The default divisor `c` is drawn from the inclusive range
0..1000, so `c = 0` is a possible draw, and for `c = 0` the constructor's
`a * b // c` raises an unguarded `ZeroDivisionError` instead of producing a
challenge; construction fails exactly when `c = 0`. -/
theorem math_answer_division_by_zero :
    (0 ∈ c_default_domain) ∧
    (∀ a b : Nat, ChallengeMathAnswer_init a b 0 = none) ∧
    (∀ a b c : Nat, (ChallengeMathAnswer_init a b c).isNone = true ↔ c = 0) := by
  refine ⟨by simp [c_default_domain], fun a b => rfl, fun a b c => ?_⟩
  by_cases hc : c = 0
  · subst hc
    simp [ChallengeMathAnswer_init]
  · simp [ChallengeMathAnswer_init, hc]

/- ### Lemmas about the disclosure loop -/

theorem discloseGo_snd : ∀ (l : List RuleFlags) (f p s : Bool),
    (discloseGo f p s l).2 = (s && l.all (fun r => r.passed)) := by
  intro l
  induction l with
  | nil => intro f p s; simp [discloseGo]
  | cons r rest ih =>
    intro f p s
    by_cases hs : (r.shown || f) = true
    · simp only [discloseGo, hs, if_true, ih, List.all_cons, Bool.and_assoc]
    · simp only [discloseGo, hs, if_false, Bool.false_eq_true]
      by_cases hp : r.passed = true
      · simp only [hp, if_true, ih, List.all_cons, Bool.and_assoc, Bool.true_and]
      · simp only [Bool.not_eq_true] at hp
        simp [hp, List.all_cons]

theorem discloseGo_inert : ∀ (l : List RuleFlags) (p s : Bool),
    (∀ x ∈ l, x.shown = false) → (discloseGo false p s l).1 = l := by
  intro l
  induction l with
  | nil => intro p s _; rfl
  | cons r rest ih =>
    intro p s hall
    have hr : r.shown = false := hall r (List.mem_cons_self r rest)
    have hrest : ∀ x ∈ rest, x.shown = false :=
      fun x hx => hall x (List.mem_cons_of_mem r hx)
    by_cases hp : r.passed = true
    · simp [discloseGo, hr, hp, ih _ _ hrest]
    · simp only [Bool.not_eq_true] at hp
      simp [discloseGo, hr, hp]

theorem forceHead_false : ∀ l : List RuleFlags, forceHead false l = l := by
  intro l
  cases l with
  | nil => rfl
  | cons r rest => simp [forceHead]

theorem pc_forceHead (g : Bool) :
    ∀ l : List RuleFlags, shownPrefixClosed l = true →
      shownPrefixClosed (forceHead g l) = true := by
  intro l h
  cases l with
  | nil => rfl
  | cons r rest =>
    simp only [shownPrefixClosed, forceHead, Bool.and_eq_true, List.all_eq_true] at h ⊢
    refine ⟨?_, h.2⟩
    intro x hx
    have := h.1 x hx
    cases hxs : x.shown with
    | false => simp [hxs]
    | true =>
      rw [hxs] at this
      simp only [Bool.not_true, Bool.false_or] at this
      simp [hxs, this]

theorem discloseGo_mono : ∀ (l : List RuleFlags) (f p s : Bool) (k : Nat)
    (a bb : RuleFlags),
    nth l k = some a → nth (discloseGo f p s l).1 k = some bb →
    bb.passed = a.passed ∧ (a.shown = true → bb.shown = true) := by
  intro l
  induction l with
  | nil =>
    intro f p s k a bb ha _
    simp [nth] at ha
  | cons r rest ih =>
    intro f p s k a bb ha hb
    by_cases hs : (r.shown || f) = true
    · simp only [discloseGo, hs, if_true] at hb
      cases k with
      | zero =>
        simp only [nth] at ha hb
        injection ha with ha'
        injection hb with hb'
        subst ha'
        subst hb'
        exact ⟨rfl, fun _ => rfl⟩
      | succ k' =>
        simp only [nth] at ha hb
        exact ih _ _ _ k' a bb ha hb
    · simp only [discloseGo, hs, if_false, Bool.false_eq_true] at hb
      by_cases hp : r.passed = true
      · simp only [hp, if_true] at hb
        cases k with
        | zero =>
          simp only [nth] at ha hb
          injection ha with ha'
          injection hb with hb'
          subst ha'
          subst hb'
          exact ⟨rfl, fun h => h⟩
        | succ k' =>
          simp only [nth] at ha hb
          exact ih _ _ _ k' a bb ha hb
      · simp only [Bool.not_eq_true] at hp
        simp only [hp, Bool.false_eq_true, if_false] at hb
        rw [ha] at hb
        injection hb with hb'
        subst hb'
        exact ⟨rfl, fun h => h⟩

theorem discloseGo_reveal_safe : ∀ (l : List RuleFlags) (f p s : Bool),
    (f = true → p = true) →
    shownPrefixClosed (forceHead f l) = true →
    ∀ (k : Nat) (a bb : RuleFlags),
      nth l k = some a → nth (discloseGo f p s l).1 k = some bb →
      bb.shown = true → (a.shown || (k == 0 && f)) = false →
      p = true ∧ ∀ j : Nat, j < k →
        ∃ cc dd : RuleFlags,
          nth l j = some cc ∧ nth (discloseGo f p s l).1 j = some dd ∧
          cc.passed = true ∧ dd.shown = true := by
  intro l
  induction l with
  | nil =>
    intro f p s _ _ k a bb ha _ _ _
    simp [nth] at ha
  | cons r rest ih =>
    intro f p s hfp hpc k a bb ha hb hshown hnew
    by_cases hs : (r.shown || f) = true
    · simp only [discloseGo, hs, if_true] at hb ⊢
      have hpcc : shownPrefixClosed rest = true := by
        simp only [forceHead, shownPrefixClosed, Bool.and_eq_true] at hpc
        exact hpc.2
      cases k with
      | zero =>
        simp only [nth] at ha
        injection ha with ha'
        subst ha'
        rw [show ((0 : Nat) == 0) = true from rfl, Bool.true_and] at hnew
        rw [hnew] at hs
        exact Bool.noConfusion hs
      | succ k' =>
        simp only [nth] at ha hb
        rw [show ((k' + 1 : Nat) == 0) = false from rfl, Bool.false_and,
          Bool.or_false] at hnew
        by_cases hkq : ((k' == 0) && (p && r.passed)) = true
        · rw [Bool.and_eq_true] at hkq
          obtain ⟨hk1, hq⟩ := hkq
          have hk0 : k' = 0 := by simpa using hk1
          subst hk0
          rw [Bool.and_eq_true] at hq
          obtain ⟨hp1, hp2⟩ := hq
          refine ⟨hp1, ?_⟩
          intro j hj
          have hj0 : j = 0 := Nat.lt_one_iff.mp hj
          subst hj0
          exact ⟨r, { r with shown := true }, rfl, rfl, hp2, rfl⟩
        · rw [Bool.not_eq_true] at hkq
          have hnew' : (a.shown || ((k' == 0) && (p && r.passed))) = false := by
            rw [hnew, hkq]
            rfl
          have hres := ih (p && r.passed) (p && r.passed) (s && r.passed)
            (fun h => h) (pc_forceHead _ rest hpcc) k' a bb ha hb hshown hnew'
          have hq1 := hres.1
          rw [Bool.and_eq_true] at hq1
          obtain ⟨hp1, hp2⟩ := hq1
          refine ⟨hp1, ?_⟩
          intro j hj
          cases j with
          | zero =>
            exact ⟨r, { r with shown := true }, rfl, rfl, hp2, rfl⟩
          | succ j' =>
            have hj' : j' < k' := Nat.lt_of_succ_lt_succ hj
            obtain ⟨cc, dd, hcc, hdd, hpss, hsh2⟩ := hres.2 j' hj'
            exact ⟨cc, dd, hcc, hdd, hpss, hsh2⟩
    · have hr : r.shown = false := by
        cases hsh : r.shown
        · rfl
        · exact absurd (by rw [hsh, Bool.true_or]) hs
      have hf : f = false := by
        cases hff : f
        · rfl
        · exact absurd (by rw [hff, Bool.or_true]) hs
      subst hf
      rw [forceHead_false] at hpc
      simp only [shownPrefixClosed, Bool.and_eq_true, List.all_eq_true] at hpc
      have hrest : ∀ x ∈ rest, x.shown = false := by
        intro x hx
        have hxr := hpc.1 x hx
        rw [hr] at hxr
        cases hxs : x.shown
        · rfl
        · rw [hxs] at hxr
          exact Bool.noConfusion hxr
      have houtfst : (discloseGo false p s (r :: rest)).1 = r :: rest := by
        by_cases hp : r.passed = true
        · simp [discloseGo, hr, hp, discloseGo_inert rest _ _ hrest]
        · simp only [Bool.not_eq_true] at hp
          simp [discloseGo, hr, hp]
      rw [houtfst] at hb
      cases k with
      | zero =>
        simp only [nth] at ha hb
        injection hb with hb'
        subst hb'
        rw [hr] at hshown
        exact Bool.noConfusion hshown
      | succ k' =>
        simp only [nth] at ha hb
        rw [ha] at hb
        injection hb with hb'
        subst hb'
        rw [show ((k' + 1 : Nat) == 0) = false from rfl, Bool.false_and,
          Bool.or_false] at hnew
        rw [hnew] at hshown
        exact Bool.noConfusion hshown

/- ### Claim C3: staged-disclosure invariants -/

/-- C3 confirmed.  Within one evaluation pass of the disclosure loop of
`ChallengePasswordGame.is_completed`, starting from any visibility state that
is a downward-closed prefix (true of the initial dictionary, where only the
first rule is shown, and preserved by every pass):
(1) visibility is monotonic non-decreasing — a rule shown on entry is shown on
exit, and `passed` flags are untouched by the loop;
(2) a rule is newly revealed only when every rule before it is passed and is
visible in the resulting state — i.e. rule `i+1` becomes visible only when
rules `0..i` are all visible and passed;
(3) no rule is newly revealed past a visible-but-failed rule: every rule after
it keeps exactly the visibility it entered with. -/
theorem staged_disclosure_invariants (rules : List RuleFlags)
    (hpc : shownPrefixClosed rules = true) :
    (∀ (k : Nat) (a bb : RuleFlags),
      nth rules k = some a → nth (disclosure_pass rules).1 k = some bb →
      bb.passed = a.passed ∧ (a.shown = true → bb.shown = true)) ∧
    (∀ (k : Nat) (a bb : RuleFlags),
      nth rules k = some a → nth (disclosure_pass rules).1 k = some bb →
      bb.shown = true → a.shown = false →
      ∀ j : Nat, j < k →
        ∃ cc dd : RuleFlags,
          nth rules j = some cc ∧ nth (disclosure_pass rules).1 j = some dd ∧
          cc.passed = true ∧ dd.shown = true) ∧
    (∀ (i k : Nat) (ri rk rk' : RuleFlags),
      i < k → nth rules i = some ri → ri.shown = true → ri.passed = false →
      nth rules k = some rk → nth (disclosure_pass rules).1 k = some rk' →
      rk'.shown = rk.shown) := by
  have hmono := fun k a bb ha hb =>
    discloseGo_mono rules false true true k a bb ha hb
  have hsafe : ∀ (k : Nat) (a bb : RuleFlags),
      nth rules k = some a → nth (disclosure_pass rules).1 k = some bb →
      bb.shown = true → a.shown = false →
      ∀ j : Nat, j < k →
        ∃ cc dd : RuleFlags,
          nth rules j = some cc ∧ nth (disclosure_pass rules).1 j = some dd ∧
          cc.passed = true ∧ dd.shown = true := by
    intro k a bb ha hb hshown hnew
    have hpc' : shownPrefixClosed (forceHead false rules) = true := by
      rw [forceHead_false]
      exact hpc
    have hnew' : (a.shown || (k == 0 && false)) = false := by
      rw [hnew, Bool.and_false, Bool.or_false]
    exact (discloseGo_reveal_safe rules false true true (fun hx => absurd hx (by simp)) hpc'
      k a bb ha hb hshown hnew').2
  refine ⟨hmono, hsafe, ?_⟩
  intro i k ri rk rk' hik hri hshown hfail hrk hrk'
  cases hsh : rk.shown with
  | true =>
    exact (hmono k rk rk' hrk hrk').2 hsh
  | false =>
    cases hsh' : rk'.shown with
    | false => rfl
    | true =>
      obtain ⟨cc, dd, hcc, hdd, hpss, -⟩ := hsafe k rk rk' hrk hrk' hsh' hsh i hik
      rw [hri] at hcc
      injection hcc with hcc'
      rw [← hcc'] at hpss
      rw [hpss] at hfail
      exact Bool.noConfusion hfail

/-- A reachable example state for the disclosure pass: first two rules passed,
only the first shown, third rule failed and hidden. -/
def rulesW : List RuleFlags :=
  [{ passed := true, shown := true }, { passed := true, shown := false },
   { passed := false, shown := false }]

/-- Witness for `staged_disclosure_invariants` at the concrete state
`rulesW`, whose visibility is a downward-closed prefix. -/
theorem staged_disclosure_invariants_witness :
    shownPrefixClosed rulesW = true ∧
    (∀ (i k : Nat) (ri rk rk' : RuleFlags),
      i < k → nth rulesW i = some ri → ri.shown = true → ri.passed = false →
      nth rulesW k = some rk → nth (disclosure_pass rulesW).1 k = some rk' →
      rk'.shown = rk.shown) :=
  ⟨by decide, (staged_disclosure_invariants rulesW (by decide)).2.2⟩

/- ### Claim C4: overall success is exactly "all rules passed" -/

theorem all_passed_eq_of_map_eq : ∀ rules1 rules2 : List RuleFlags,
    rules1.map RuleFlags.passed = rules2.map RuleFlags.passed →
    rules1.all (fun r => r.passed) = rules2.all (fun r => r.passed) := by
  intro rules1
  induction rules1 with
  | nil =>
    intro rules2 h
    cases rules2 with
    | nil => rfl
    | cons r2 rest2 => simp at h
  | cons r rest ih =>
    intro rules2 h
    cases rules2 with
    | nil => simp at h
    | cons r2 rest2 =>
      simp only [List.map_cons, List.cons.injEq] at h
      simp only [List.all_cons, h.1, ih rest2 h.2]

/-- C4 confirmed.  The `success` value returned by the disclosure loop of
`ChallengePasswordGame.is_completed` is true exactly when every rule's
`passed` flag is true, independently of the `visible` flags: any two rule
states with the same `passed` flags yield the same success, so a candidate
satisfying every rule succeeds even if some rules were never shown. -/
theorem disclosure_success_iff_all_passed :
    (∀ rules : List RuleFlags,
      (disclosure_pass rules).2 = true ↔ ∀ r ∈ rules, r.passed = true) ∧
    (∀ rules1 rules2 : List RuleFlags,
      rules1.map RuleFlags.passed = rules2.map RuleFlags.passed →
      (disclosure_pass rules1).2 = (disclosure_pass rules2).2) := by
  constructor
  · intro rules
    rw [disclosure_pass, discloseGo_snd]
    simp [List.all_eq_true]
  · intro rules1 rules2 h
    rw [disclosure_pass, disclosure_pass, discloseGo_snd, discloseGo_snd,
      Bool.true_and, Bool.true_and]
    exact all_passed_eq_of_map_eq rules1 rules2 h

/- ### Claim C9: `evaluate_rules` is deterministic and carries no stale state -/

theorem resetPassed_eq_of_shown_eq : ∀ s1 s2 : List RuleFlags,
    s1.map RuleFlags.shown = s2.map RuleFlags.shown →
    resetPassed s1 = resetPassed s2 := by
  intro s1
  induction s1 with
  | nil =>
    intro s2 h
    cases s2 with
    | nil => rfl
    | cons r2 rest2 => simp at h
  | cons r rest ih =>
    intro s2 h
    cases s2 with
    | nil => simp at h
    | cons r2 rest2 =>
      simp only [List.map_cons, List.cons.injEq] at h
      obtain ⟨h1, h2⟩ := h
      simp only [resetPassed, List.map_cons, List.cons.injEq]
      constructor
      · cases r with
        | mk rp rs =>
          cases r2 with
          | mk r2p r2s =>
            have h1' : rs = r2s := h1
            rw [h1']
      · have := ih rest2 h2
        simpa [resetPassed] using this

/-- C9 confirmed.  `evaluate_rules` resets every `passed` flag (lines 666-667)
and re-derives each from the current candidate's content and title only, and
the evidence list is a function of content and title alone; hence the result
is independent of the `passed` flags the state carried in — two evaluations
against the same unchanged content produce identical passed flags and
identical evidence, with no leakage of prior results. -/
theorem evaluate_rules_no_stale_state (title raw : List Char)
    (s1 s2 : List RuleFlags)
    (h : s1.map RuleFlags.shown = s2.map RuleFlags.shown) :
    evaluate_rules title raw s1 = evaluate_rules title raw s2 := by
  simp only [evaluate_rules]
  rw [resetPassed_eq_of_shown_eq s1 s2 h]

/-- Two states with identical `shown` flags but opposite stale `passed`
flags. -/
def statesW1 : List RuleFlags :=
  [{ passed := true, shown := true }, { passed := true, shown := false }]

def statesW2 : List RuleFlags :=
  [{ passed := false, shown := true }, { passed := false, shown := false }]

/-- Witness for `evaluate_rules_no_stale_state` at concrete states carrying
different stale `passed` flags. -/
theorem evaluate_rules_no_stale_state_witness :
    statesW1.map RuleFlags.shown = statesW2.map RuleFlags.shown ∧
    evaluate_rules (String.toList "ab") (String.toList "ab") statesW1
      = evaluate_rules (String.toList "ab") (String.toList "ab") statesW2 :=
  ⟨by decide,
   evaluate_rules_no_stale_state (String.toList "ab") (String.toList "ab")
     statesW1 statesW2 (by decide)⟩
